import Mathlib

/-!
# quiet_hn: the Hacker News client (`hn/client.go`, `hn/parser.go`)

A shallow embedding of `ParseHNItem`, `ParsedItem.isStoryLink`,
`Client.GetValidItem` and `Client.GetItems`, followed by theorems about them.

Modelling conventions.

* Go `int` is `Int` for identifiers and item fields (no arithmetic is done
  on them) and `Nat` for lengths, cursors and `numStories` (a negative
  `numStories` makes `make(chan *ParsedItem, numStories)` panic before
  anything else happens).  Go `string` is `String`, Go `error` is
  `Option String` with `none` for `nil`.
* `Client.GetItem` is a network call.  It is the parameter
  `GetItem : Int → Item × Option String`: the item value it returns (the zero
  or partially decoded item on failure) and its error.  An identifier that
  occurs twice in `ids` is fetched twice and gets the same answer.
* `url.Parse` and `(*URL).Hostname` belong to Go's standard library.  They are
  the parameter `urlHostname : String → Option String`: `none` when
  `url.Parse` returns an error, `some h` when it succeeds and `Hostname()`
  is `h`.
* The channel `ch` and the goroutines started by `go c.GetValidItem(id, ch)`
  are a list of queues, one per goroutine in launch order, each holding the
  values that goroutine has still to send, in program order.  A receive
  `<-ch` takes the head of one queue that is not empty; which one is picked
  by a schedule (`List Nat`, one choice per receive, `0` once the list is
  used up).  Every order in which the sends of the launched goroutines can
  reach the coordinating loop is the run of some schedule, whatever the
  buffer size of the channel: the buffer is first-in first-out, so what is
  received is the order of the sends, and a goroutine is free to send at any
  moment after its launch.  A receive with no value left to deliver blocks
  for ever: the model returns `none`.
* `math.Min(float64(slice_start+35), float64(len(ids)))` converted back to
  `int` is `min (slice_start + 35) ids.length`: the conversions are exact
  below `2 ^ 53`.
-/

namespace QuietHN

/-! ## Data model -/

/-- The struct `Item` of `client.go`. The field `Type` is written `Type_`. -/
structure Item where
  By : String
  Descendants : Int
  ID : Int
  Kids : List Int
  Score : Int
  Time : Int
  Title : String
  Type_ : String
  Text : String
  URL : String
deriving DecidableEq

/-- The struct `ParsedItem` of `parser.go`: an embedded `Item` plus `Host`. -/
structure ParsedItem extends Item where
  Host : String
deriving DecidableEq

/-- The zero value of `Item` (`var item Item`). -/
def Item.zero : Item :=
  { By := "", Descendants := 0, ID := 0, Kids := [], Score := 0, Time := 0,
    Title := "", Type_ := "", Text := "", URL := "" }

/-! ## parser.go -/

/-- Go `strings.HasPrefix`. -/
def HasPrefix (s pre : String) : Bool :=
  pre.data.isPrefixOf s.data

/-- Go `strings.TrimPrefix`: `s` without the leading `pre` when it has one,
otherwise `s` itself. -/
def TrimPrefix (s pre : String) : String :=
  if HasPrefix s pre then String.mk (s.data.drop pre.data.length) else s

/-- The function `ParseHNItem` of `parser.go`. -/
def ParseHNItem (urlHostname : String → Option String) (hnItem : Item) : ParsedItem :=
  let ret : ParsedItem := { toItem := hnItem, Host := "" }
  match urlHostname ret.URL with
  | some h => { ret with Host := TrimPrefix h "www." }
  | none => ret

/-- The method `ParsedItem.isStoryLink` of `parser.go`. -/
def ParsedItem.isStoryLink (item : ParsedItem) : Bool :=
  item.Type_ == "story" && item.URL != ""

/-! ## client.go: `GetValidItem` -/

/-- The method `Client.GetValidItem`: the values the call sends on `ch`, in program
order.  None of the three sends is followed by a `return`. -/
def GetValidItem (urlHostname : String → Option String)
    (GetItem : Int → Item × Option String) (id : Int) : List (Option ParsedItem) :=
  let hnItem := (GetItem id).1
  let err := (GetItem id).2
  let item := ParseHNItem urlHostname hnItem
  (if item.isStoryLink then [none] else [])
    ++ (if err.isSome then [none] else [])
    ++ [some item]

/-! ## client.go: `GetItems` -/

/-- The channel `ch` together with the goroutines sending on it. -/
abbrev Chan := List (List (Option ParsedItem))

/-- Number of goroutines that still have a value to send. -/
def Chan.ready (ch : Chan) : Nat :=
  (ch.filter (fun q => !q.isEmpty)).length

/-- Take the next value of the `n`-th goroutine that still has one. -/
def Chan.deliver : Nat → Chan → Option (Option ParsedItem × Chan)
  | _, [] => none
  | n, [] :: rest => (Chan.deliver n rest).map (fun r => (r.1, [] :: r.2))
  | 0, (v :: q) :: rest => some (v, q :: rest)
  | n + 1, (v :: q) :: rest => (Chan.deliver n rest).map (fun r => (r.1, (v :: q) :: r.2))

/-- One receive `<-ch` under the scheduling choice `choice`. -/
def Chan.recv (choice : Nat) (ch : Chan) : Option (Option ParsedItem × Chan) :=
  if ch.ready = 0 then none else ch.deliver (choice % ch.ready)

/-- Assignment `m[k] = v` on a Go map kept as an association list. -/
def mapSet (m : List (Int × ParsedItem)) (k : Int) (v : ParsedItem) : List (Int × ParsedItem) :=
  match m with
  | [] => [(k, v)]
  | (k', v') :: rest => if k' = k then (k, v) :: rest else (k', v') :: mapSet rest k v

/-- Lookup `v, has := m[k]` on a Go map kept as an association list. -/
def mapGet (m : List (Int × ParsedItem)) (k : Int) : Option ParsedItem :=
  match m with
  | [] => none
  | (k', v') :: rest => if k' = k then some v' else mapGet rest k

/-- State of the coordinating flow of `GetItems`, with a trace of the windows
it took: `(slice_start, slice_end, ids_slice)` per round. -/
structure Coord where
  stories_map : List (Int × ParsedItem)
  ch : Chan
  sched : List Nat
  windows : List (Nat × Nat × List Int)

/-- The loop `for range ids_slice { item := <-ch; if item != nil { ... } }`,
with `k` receives to go. -/
def receiveLoop : Nat → Coord → Option Coord
  | 0, st => some st
  | k + 1, st =>
    match st.ch.recv (st.sched.headD 0) with
    | none => none
    | some (item, ch') =>
      match item with
      | some it =>
        receiveLoop k { st with ch := ch', sched := st.sched.tail,
                                stories_map := mapSet st.stories_map it.ID it }
      | none => receiveLoop k { st with ch := ch', sched := st.sched.tail }

/-- The loop `for len(stories_map) < numStories && slice_start < len(ids)`.
The first argument bounds the number of rounds; `none` when it is used up
with the loop condition still true, or when a receive blocks for ever. -/
def windowLoop (urlHostname : String → Option String)
    (GetItem : Int → Item × Option String) (ids : List Int) (numStories : Nat) :
    Nat → Nat → Coord → Option Coord
  | 0, slice_start, st =>
    if st.stories_map.length < numStories ∧ slice_start < ids.length then none else some st
  | fuel + 1, slice_start, st =>
    if st.stories_map.length < numStories ∧ slice_start < ids.length then
      let slice_end := min (slice_start + 35) ids.length
      let ids_slice := (ids.take slice_end).drop slice_start
      let launched : Coord :=
        { st with ch := st.ch ++ ids_slice.map (GetValidItem urlHostname GetItem),
                  windows := st.windows ++ [(slice_start, slice_end, ids_slice)] }
      match receiveLoop ids_slice.length launched with
      | none => none
      | some st' => windowLoop urlHostname GetItem ids numStories fuel slice_end st'
    else some st

/-- The loop `for i := 0; i < len(ids) && len(stories) < len(stories_map); i++`
over the identifiers still to read, `stories` being the slice built so far. -/
def scanIds (stories_map : List (Int × ParsedItem)) :
    List Int → List ParsedItem → List ParsedItem
  | [], stories => stories
  | id :: rest, stories =>
    if stories.length < stories_map.length then
      match mapGet stories_map id with
      | some story => scanIds stories_map rest (stories ++ [story])
      | none => scanIds stories_map rest stories
    else stories

/-- The coordinating state when the window loop of `GetItems` has ended. -/
def GetItemsRun (urlHostname : String → Option String)
    (GetItem : Int → Item × Option String) (sched : List Nat)
    (ids : List Int) (numStories : Nat) : Option Coord :=
  windowLoop urlHostname GetItem ids numStories ids.length 0
    { stories_map := [], ch := [], sched := sched, windows := [] }

/-- The tail of `GetItems`: reorder against `ids`, then check the length. -/
def assemble (stories_map : List (Int × ParsedItem)) (ids : List Int) (numStories : Nat) :
    List ParsedItem × Option String :=
  let stories := scanIds stories_map ids []
  if stories.length < numStories then (stories, some "not enough stories")
  else if stories.length > numStories then (stories.take numStories, none)
  else (stories, none)

/-- The method `Client.GetItems`: the returned slice and error, `none` when the call
does not return. -/
def GetItems (urlHostname : String → Option String)
    (GetItem : Int → Item × Option String) (sched : List Nat)
    (ids : List Int) (numStories : Nat) : Option (List ParsedItem × Option String) :=
  (GetItemsRun urlHostname GetItem sched ids numStories).map
    (fun st => assemble st.stories_map ids numStories)

/-! ## Auxiliary definitions for the statements -/

/-- Invariant of the accumulator: every value is stored under its own `ID`. -/
def KeyInv (m : List (Int × ParsedItem)) : Prop := ∀ p ∈ m, p.2.ID = p.1

/-- The window taken at cursor `c`, as the loop body computes it. -/
def windowAt (ids : List Int) (c : Nat) : Nat × Nat × List Int :=
  (c, min (c + 35) ids.length, (ids.take (min (c + 35) ids.length)).drop c)

/-- The window length the specification states: `min (N * B) remaining` with
the multiplier `B = 35 / 30` (35 for `N = 30`, 70 for `N = 60`). -/
def specWindowLength (numStories cursor len : Nat) : Nat :=
  min (numStories * 35 / 30) (len - cursor)

/-! ## Sample inputs -/

/-- Characters after the first `://` of a URL, none when there is no `://`. -/
def afterScheme : List Char → List Char
  | [] => []
  | ':' :: '/' :: '/' :: rest => rest
  | _ :: rest => afterScheme rest

/-- A stand-in for `url.Parse` followed by `Hostname()` on inputs of the
shape `scheme://host[:port][/path]`, used to give the parameter `urlHostname`
a concrete value.  As `url.Parse` does, it fails on an ASCII control
character and yields the empty host name on the empty string. -/
def sampleHostname (s : String) : Option String :=
  if s.data.any (fun c => decide (c.toNat < 32) || decide (c.toNat = 127)) then none
  else some (String.mk ((afterScheme s.data).takeWhile
    (fun c => !(c == '/' || c == ':' || c == '?' || c == '#'))))

/-- A story with a link, as the API returns it for identifier `id`. -/
def storyItem (id : Int) : Item :=
  { Item.zero with ID := id, Type_ := "story", Title := "A story",
                   URL := "http://www.example.com/x" }

/-- A comment (no link), as the API returns it for identifier `id`. -/
def commentItem (id : Int) : Item :=
  { Item.zero with ID := id, Type_ := "comment", Text := "A comment" }

/-- A job posting without a link, as the API returns it for identifier `id`. -/
def jobItem (id : Int) : Item :=
  { Item.zero with ID := id, Type_ := "job", Title := "A job", Text := "Apply" }

/-- The fetch of the windowing example of the specification: every item is a
story with a link, except items 2 and 4, which are comments. -/
def exampleFetch (id : Int) : Item × Option String :=
  if id = 2 ∨ id = 4 then (commentItem id, none) else (storyItem id, none)

/-- A fetch whose decoding fails after the fields of a story were filled in:
`GetItem` returns the item together with a non-nil error. -/
def failingFetch (id : Int) : Item × Option String :=
  (storyItem id, some "json: cannot unmarshal string into Go struct field Item.score of type int")

/-! ## Helper lemmas: the channel never blocks the coordinating loop -/

theorem ready_nil : Chan.ready [] = 0 := rfl

theorem ready_cons_nil (rest : Chan) : Chan.ready ([] :: rest) = Chan.ready rest := by
  simp [Chan.ready]

theorem ready_cons_cons (v : Option ParsedItem) (q : List (Option ParsedItem)) (rest : Chan) :
    Chan.ready ((v :: q) :: rest) = Chan.ready rest + 1 := by
  simp [Chan.ready]

theorem ready_append (a b : Chan) : Chan.ready (a ++ b) = Chan.ready a + Chan.ready b := by
  simp [Chan.ready]

theorem GetValidItem_ne_nil (urlHostname : String → Option String)
    (GetItem : Int → Item × Option String) (id : Int) :
    GetValidItem urlHostname GetItem id ≠ [] := by
  simp [GetValidItem]

theorem ready_launch (urlHostname : String → Option String)
    (GetItem : Int → Item × Option String) (ids_slice : List Int) :
    Chan.ready (ids_slice.map (GetValidItem urlHostname GetItem)) = ids_slice.length := by
  induction ids_slice with
  | nil => rfl
  | cons id rest ih =>
    rcases hq : GetValidItem urlHostname GetItem id with _ | ⟨v, q⟩
    · exact absurd hq (GetValidItem_ne_nil urlHostname GetItem id)
    · simp only [List.map_cons, hq, ready_cons_cons, ih, List.length_cons]

theorem deliver_some (ch : Chan) : ∀ n, n < ch.ready →
    ∃ v ch', ch.deliver n = some (v, ch') ∧ ch.ready ≤ ch'.ready + 1 := by
  induction ch with
  | nil => intro n h; simp [ready_nil] at h
  | cons q rest ih =>
    intro n h
    rcases q with _ | ⟨v, q⟩
    · rw [ready_cons_nil] at h
      obtain ⟨w, ch', hd, hr⟩ := ih n h
      refine ⟨w, [] :: ch', ?_, ?_⟩
      · cases n <;> simp [Chan.deliver, hd]
      · simpa [ready_cons_nil] using hr
    · rw [ready_cons_cons] at h
      cases n with
      | zero =>
        refine ⟨v, q :: rest, by simp [Chan.deliver], ?_⟩
        rw [ready_cons_cons]
        rcases q with _ | ⟨w, q⟩
        · simp [ready_cons_nil]
        · simp [ready_cons_cons]
      | succ n =>
        obtain ⟨w, ch', hd, hr⟩ := ih n (by omega)
        refine ⟨w, (v :: q) :: ch', by simp [Chan.deliver, hd], ?_⟩
        simp only [ready_cons_cons]; omega

theorem recv_some (choice : Nat) (ch : Chan) (h : 0 < ch.ready) :
    ∃ v ch', ch.recv choice = some (v, ch') ∧ ch.ready ≤ ch'.ready + 1 := by
  unfold Chan.recv
  rw [if_neg (by omega)]
  exact deliver_some ch _ (Nat.mod_lt _ h)

theorem KeyInv_mapSet (m : List (Int × ParsedItem)) (it : ParsedItem) (h : KeyInv m) :
    KeyInv (mapSet m it.ID it) := by
  induction m with
  | nil => intro p hp; simp [mapSet] at hp; subst hp; rfl
  | cons a rest ih =>
    obtain ⟨k, v⟩ := a
    have hrest : KeyInv rest := fun p hp => h p (List.mem_cons_of_mem _ hp)
    intro p hp
    unfold mapSet at hp
    split at hp
    · rcases List.mem_cons.1 hp with rfl | hp
      · rfl
      · exact hrest p hp
    · rcases List.mem_cons.1 hp with rfl | hp
      · exact h _ (List.mem_cons_self _ _)
      · exact ih hrest p hp

theorem mapGet_mem (m : List (Int × ParsedItem)) (k : Int) (v : ParsedItem)
    (h : mapGet m k = some v) : (k, v) ∈ m := by
  induction m with
  | nil => simp [mapGet] at h
  | cons a rest ih =>
    obtain ⟨k', v'⟩ := a
    unfold mapGet at h
    split at h
    · rename_i hk
      simp only [Option.some.injEq] at h
      subst hk; subst h
      exact List.mem_cons_self _ _
    · exact List.mem_cons_of_mem _ (ih h)

theorem receiveLoop_some : ∀ (k : Nat) (st : Coord), k ≤ st.ch.ready →
    ∃ st', receiveLoop k st = some st' ∧ st'.windows = st.windows ∧
      (KeyInv st.stories_map → KeyInv st'.stories_map) := by
  intro k
  induction k with
  | zero => intro st _; exact ⟨st, rfl, rfl, id⟩
  | succ k ih =>
    intro st h
    obtain ⟨v, ch', hrecv, hready⟩ := recv_some (st.sched.headD 0) st.ch (by omega)
    rcases v with _ | it
    · obtain ⟨st', h1, h2, h3⟩ :=
        ih { st with ch := ch', sched := st.sched.tail } (by show k ≤ ch'.ready; omega)
      refine ⟨st', ?_, h2, h3⟩
      unfold receiveLoop
      rw [hrecv]
      exact h1
    · obtain ⟨st', h1, h2, h3⟩ :=
        ih ⟨mapSet st.stories_map it.ID it, ch', st.sched.tail, st.windows⟩
          (by show k ≤ ch'.ready; omega)
      refine ⟨st', ?_, h2, fun hk => h3 (KeyInv_mapSet _ _ hk)⟩
      unfold receiveLoop
      rw [hrecv]
      exact h1

theorem windowLoop_done (urlHostname : String → Option String)
    (GetItem : Int → Item × Option String) (ids : List Int) (numStories fuel slice_start : Nat)
    (st : Coord) (h : ¬ (st.stories_map.length < numStories ∧ slice_start < ids.length)) :
    windowLoop urlHostname GetItem ids numStories fuel slice_start st = some st := by
  cases fuel <;> simp only [windowLoop, if_neg h]

theorem windowLoop_round (urlHostname : String → Option String)
    (GetItem : Int → Item × Option String) (ids : List Int) (numStories fuel slice_start : Nat)
    (st : Coord) (h : st.stories_map.length < numStories ∧ slice_start < ids.length) :
    windowLoop urlHostname GetItem ids numStories (fuel + 1) slice_start st =
      match receiveLoop ((ids.take (min (slice_start + 35) ids.length)).drop slice_start).length
        { st with
          ch := st.ch ++ ((ids.take (min (slice_start + 35) ids.length)).drop slice_start).map
            (GetValidItem urlHostname GetItem),
          windows := st.windows ++ [(slice_start, min (slice_start + 35) ids.length,
            (ids.take (min (slice_start + 35) ids.length)).drop slice_start)] } with
      | none => none
      | some st' =>
        windowLoop urlHostname GetItem ids numStories fuel (min (slice_start + 35) ids.length) st' := by
  simp only [windowLoop, if_pos h]

theorem windowLoop_some (urlHostname : String → Option String)
    (GetItem : Int → Item × Option String) (ids : List Int) (numStories : Nat) :
    ∀ (fuel slice_start : Nat) (st : Coord), ids.length - slice_start ≤ fuel →
      slice_start ≤ ids.length →
      ∃ st' k, windowLoop urlHostname GetItem ids numStories fuel slice_start st = some st' ∧
        st'.windows = st.windows ++ (List.range k).map (fun i => windowAt ids (slice_start + 35 * i)) ∧
        (∀ i, i < k → slice_start + 35 * i < ids.length) ∧
        ¬ (st'.stories_map.length < numStories ∧ min (slice_start + 35 * k) ids.length < ids.length) ∧
        (KeyInv st.stories_map → KeyInv st'.stories_map) := by
  intro fuel
  induction fuel with
  | zero =>
    intro s st h hs
    refine ⟨st, 0, ?_, by simp, by simp, by omega, id⟩
    unfold windowLoop
    rw [if_neg (by omega)]
  | succ fuel ih =>
    intro s st h hs
    by_cases hc : st.stories_map.length < numStories ∧ s < ids.length
    · have hlen : ((ids.take (min (s + 35) ids.length)).drop s).length
          ≤ Chan.ready (st.ch ++ ((ids.take (min (s + 35) ids.length)).drop s).map
              (GetValidItem urlHostname GetItem)) := by
        rw [ready_append, ready_launch]; omega
      obtain ⟨st1, h1, hw1, hk1⟩ := receiveLoop_some _
        ⟨st.stories_map, st.ch ++ ((ids.take (min (s + 35) ids.length)).drop s).map
            (GetValidItem urlHostname GetItem), st.sched,
          st.windows ++ [(s, min (s + 35) ids.length,
            (ids.take (min (s + 35) ids.length)).drop s)]⟩ hlen
      obtain ⟨st', k, h2, hw2, hlt, hexit, hk2⟩ :=
        ih (min (s + 35) ids.length) st1 (by omega) (by omega)
      refine ⟨st', k + 1, ?_, ?_, ?_, ?_, fun hk => hk2 (hk1 hk)⟩
      · rw [windowLoop_round _ _ _ _ _ _ _ hc, h1]
        exact h2
      · rw [hw2, hw1, List.range_succ_eq_map, List.map_cons, List.map_map, List.append_assoc]
        congr 1
        simp only [List.singleton_append, Nat.mul_zero, Nat.add_zero, windowAt]
        congr 1
        apply List.map_congr_left
        intro i hi
        have hi' := hlt i (List.mem_range.1 hi)
        have : min (s + 35) ids.length = s + 35 := by omega
        simp only [Function.comp, this]
        rw [show s + 35 + 35 * i = s + 35 * i.succ from by omega]
      · intro i hi
        cases i with
        | zero => omega
        | succ i =>
          have hi' := hlt i (by omega)
          omega
      · intro hcon
        apply hexit
        refine ⟨hcon.1, ?_⟩
        have := hcon.2
        omega
    · refine ⟨st, 0, windowLoop_done _ _ _ _ _ _ _ hc, by simp, by simp, ?_, id⟩
      intro hcon
      apply hc
      refine ⟨hcon.1, ?_⟩
      have := hcon.2
      omega

theorem GetItemsRun_some (urlHostname : String → Option String)
    (GetItem : Int → Item × Option String) (sched : List Nat) (ids : List Int)
    (numStories : Nat) :
    ∃ st k, GetItemsRun urlHostname GetItem sched ids numStories = some st ∧
      st.windows = (List.range k).map (fun i => windowAt ids (35 * i)) ∧
      (∀ i, i < k → 35 * i < ids.length) ∧
      ¬ (st.stories_map.length < numStories ∧ min (35 * k) ids.length < ids.length) ∧
      KeyInv st.stories_map := by
  obtain ⟨st, k, h1, h2, h3, h4, h5⟩ := windowLoop_some urlHostname GetItem ids numStories
    ids.length 0 ⟨[], [], sched, []⟩ (by omega) (by omega)
  refine ⟨st, k, h1, ?_, ?_, ?_, h5 (fun p hp => by simp at hp)⟩
  · simpa using h2
  · simpa using h3
  · simpa using h4

theorem scanIds_spec (m : List (Int × ParsedItem)) (hm : KeyInv m) :
    ∀ (rest : List Int) (stories : List ParsedItem),
      ∃ tail, scanIds m rest stories = stories ++ tail ∧
        (tail.map (fun s => s.ID)).Sublist rest := by
  intro rest
  induction rest with
  | nil => intro stories; exact ⟨[], by simp [scanIds], by simp⟩
  | cons id rest ih =>
    intro stories
    unfold scanIds
    split
    · split
      · rename_i story hget
        obtain ⟨tail, h1, h2⟩ := ih (stories ++ [story])
        refine ⟨story :: tail, by simp [h1], ?_⟩
        have hid : story.ID = id := hm _ (mapGet_mem _ _ _ hget)
        simp only [List.map_cons, hid]
        exact h2.cons₂ id
      · obtain ⟨tail, h1, h2⟩ := ih stories
        exact ⟨tail, h1, h2.cons id⟩
    · exact ⟨[], by simp, by simp⟩

theorem ParseHNItem_toItem (urlHostname : String → Option String) (hnItem : Item) :
    (ParseHNItem urlHostname hnItem).toItem = hnItem := by
  simp only [ParseHNItem]
  split <;> rfl

theorem isStoryLink_ParseHNItem (urlHostname : String → Option String) (hnItem : Item) :
    (ParseHNItem urlHostname hnItem).isStoryLink = (hnItem.Type_ == "story" && hnItem.URL != "") := by
  unfold ParsedItem.isStoryLink
  rw [ParseHNItem_toItem]

theorem receiveLoop_succ (k : Nat) (st : Coord) :
    receiveLoop (k + 1) st =
      match st.ch.recv (st.sched.headD 0) with
      | none => none
      | some (item, ch') =>
        match item with
        | some it =>
          receiveLoop k { st with ch := ch', sched := st.sched.tail,
                                  stories_map := mapSet st.stories_map it.ID it }
        | none => receiveLoop k { st with ch := ch', sched := st.sched.tail } := rfl

theorem receiveLoop_three (x y z : ParsedItem) (m : List (Int × ParsedItem))
    (sched : List Nat) (w : List (Nat × Nat × List Int)) :
    ∃ a b c ch' sched',
      receiveLoop 3 ⟨m, [[some x], [some y], [some z]], sched, w⟩
        = some ⟨mapSet (mapSet (mapSet m a.ID a) b.ID b) c.ID c, ch', sched', w⟩ ∧
      ((a, b, c) = (x, y, z) ∨ (a, b, c) = (x, z, y) ∨ (a, b, c) = (y, x, z) ∨
       (a, b, c) = (y, z, x) ∨ (a, b, c) = (z, x, y) ∨ (a, b, c) = (z, y, x)) := by
  have ha := Nat.mod_lt (sched.headD 0) (show 3 > 0 by decide)
  have hb := Nat.mod_lt (sched.tail.headD 0) (show 2 > 0 by decide)
  have hc := Nat.mod_one (sched.tail.tail.headD 0)
  rw [show (3 : Nat) = 2 + 1 from rfl, receiveLoop_succ]
  simp only [Chan.recv, Chan.ready, List.filter, List.isEmpty, Bool.not_false, Bool.not_true,
    List.length_cons, List.length_nil, Nat.zero_add, Nat.reduceAdd]
  generalize sched.headD 0 % 3 = i at ha
  interval_cases i <;>
  simp only [Chan.deliver, Option.map, (by decide : ¬ ((3 : Nat) = 0)), if_false] <;>
  rw [show (2 : Nat) = 1 + 1 from rfl, receiveLoop_succ] <;>
  simp only [Chan.recv, Chan.ready, List.filter, List.isEmpty, Bool.not_false, Bool.not_true,
    List.length_cons, List.length_nil, Nat.zero_add, Nat.reduceAdd, List.tail_cons] <;>
  generalize sched.tail.headD 0 % 2 = j at hb <;>
  interval_cases j <;>
  simp only [Chan.deliver, Option.map, (by decide : ¬ ((2 : Nat) = 0)), if_false] <;>
  rw [show (1 : Nat) = 0 + 1 from rfl, receiveLoop_succ] <;>
  simp only [Chan.recv, Chan.ready, List.filter, List.isEmpty, Bool.not_false, Bool.not_true,
    List.length_cons, List.length_nil, Nat.zero_add, Nat.reduceAdd, hc, Chan.deliver, Option.map,
    (by decide : ¬ ((1 : Nat) = 0)), if_false, receiveLoop] <;>
  refine ⟨_, _, _, _, _, rfl, ?_⟩ <;>
  simp

/-! ## Claims -/

/-- C1 (count contract), evaluated on the code: a single identifier whose
fetch succeeds with a valid story and `numStories = 1`.  Whatever the
schedule, `GetItems` returns no item and the error, because `GetValidItem`
sends `nil` first for a valid story and the loop receives one value only.
On the windowing example of the specification (`ids = [1,2,3,4,5]`, `N = 3`,
items 2 and 4 not stories) one completion order returns the two comments
with the error, instead of items 1, 3 and 5. -/
theorem GetItems_valid_story_missed (urlHostname : String → Option String) (sched : List Nat) :
    (ParseHNItem urlHostname (storyItem 1)).isStoryLink = true ∧
    GetItems urlHostname (fun _ => (storyItem 1, none)) sched [1] 1
      = some ([], some "not enough stories") ∧
    (GetItems sampleHostname exampleFetch [0, 2, 4, 1, 2] [1, 2, 3, 4, 5] 3).map
        (fun r => (r.1.map (fun s => s.ID), r.2))
      = some ([2, 4], some "not enough stories") := by
  have hs : (ParseHNItem urlHostname (storyItem 1)).isStoryLink = true := by
    rw [isStoryLink_ParseHNItem]; decide
  refine ⟨hs, ?_, by decide⟩
  simp [GetItems, GetItemsRun, windowLoop, receiveLoop, Chan.recv, Chan.ready, Chan.deliver,
    GetValidItem, hs, assemble, scanIds, Nat.mod_one]

/-- C2 (order preservation): for every identifier sequence, target count,
fetch function and schedule of the sends, `GetItems` returns, and the `ID`s
of the returned items, read left to right, form a subsequence of `ids`. -/
theorem GetItems_order (urlHostname : String → Option String)
    (GetItem : Int → Item × Option String) (sched : List Nat) (ids : List Int)
    (numStories : Nat) :
    ∃ r, GetItems urlHostname GetItem sched ids numStories = some r ∧
      (r.1.map (fun s => s.ID)).Sublist ids := by
  obtain ⟨st, k, hrun, _, _, _, hkey⟩ :=
    GetItemsRun_some urlHostname GetItem sched ids numStories
  obtain ⟨tail, htail, hsub⟩ := scanIds_spec st.stories_map hkey ids []
  refine ⟨assemble st.stories_map ids numStories, by simp [GetItems, hrun], ?_⟩
  simp only [assemble, htail, List.nil_append]
  split
  · exact hsub
  · split
    · exact ((List.take_sublist numStories tail).map _).trans hsub
    · exact hsub

/-- C3 (insufficiency contract), evaluated on the code: a single identifier
whose fetch succeeds with a comment (no valid item at all, `K = 0`) and
`numStories = 1`.  Whatever the schedule, `GetItems` returns the comment and
a nil error, where the claim asks for the error and an empty sequence. -/
theorem GetItems_comment_counted (urlHostname : String → Option String) (sched : List Nat) :
    (ParseHNItem urlHostname (commentItem 1)).isStoryLink = false ∧
    GetItems urlHostname (fun _ => (commentItem 1, none)) sched [1] 1
      = some ([ParseHNItem urlHostname (commentItem 1)], none) := by
  have hs : (ParseHNItem urlHostname (commentItem 1)).isStoryLink = false := by
    rw [isStoryLink_ParseHNItem]; decide
  have hid : (ParseHNItem urlHostname (commentItem 1)).ID = 1 := by
    rw [ParseHNItem_toItem]; rfl
  refine ⟨hs, ?_⟩
  simp [GetItems, GetItemsRun, windowLoop, receiveLoop, Chan.recv, Chan.ready, Chan.deliver,
    GetValidItem, hs, assemble, scanIds, mapSet, mapGet, hid, Nat.mod_one]

/-- C4 (deduplication), evaluated on the code: with `ids = [1, 1, 2]` and
`numStories = 2` the returned `ID`s are `[1, 1]` whatever the schedule (the
three items are comments, each sent once); with `ids = [1, 1, 2, 3]`, all of
them valid stories, one completion order gives `[1, 1]` as well.  The scan
stops once it has appended as many stories as the accumulator holds, and it
appends the entry of identifier 1 at both of its positions. -/
theorem GetItems_duplicate_output (urlHostname : String → Option String) (sched : List Nat) :
    (GetItems urlHostname (fun id => (commentItem id, none)) sched [1, 1, 2] 2).map
        (fun r => (r.1.map (fun s => s.ID), r.2)) = some ([1, 1], none) ∧
    (GetItems sampleHostname (fun id => (storyItem id, none)) [0, 0, 1, 1] [1, 1, 2, 3] 2).map
        (fun r => (r.1.map (fun s => s.ID), r.2)) = some ([1, 1], none) := by
  refine ⟨?_, by decide⟩
  have hs : ∀ id, (ParseHNItem urlHostname (commentItem id)).isStoryLink = false := by
    intro id; rw [isStoryLink_ParseHNItem]; rfl
  have hid : ∀ id, (ParseHNItem urlHostname (commentItem id)).ID = id := by
    intro id; rw [ParseHNItem_toItem]; rfl
  have hq : ∀ id, GetValidItem urlHostname (fun id => (commentItem id, none)) id
      = [some (ParseHNItem urlHostname (commentItem id))] := by
    intro id; simp [GetValidItem, hs]
  obtain ⟨a, b, c, ch', sched', hrun, hcase⟩ := receiveLoop_three
    (ParseHNItem urlHostname (commentItem 1)) (ParseHNItem urlHostname (commentItem 1))
    (ParseHNItem urlHostname (commentItem 2)) [] sched [(0, 3, [1, 1, 2])]
  have hrun' : GetItemsRun urlHostname (fun id => (commentItem id, none)) sched [1, 1, 2] 2
      = some ⟨mapSet (mapSet (mapSet [] a.ID a) b.ID b) c.ID c, ch', sched', [(0, 3, [1, 1, 2])]⟩ := by
    unfold GetItemsRun
    rw [show ([1, 1, 2] : List Int).length = 2 + 1 from rfl,
      windowLoop_round urlHostname (fun id => (commentItem id, none)) [1, 1, 2] 2 2 0
        ⟨[], [], sched, []⟩ ⟨Nat.succ_pos 1, Nat.succ_pos 2⟩]
    simp only [List.length_cons, List.length_nil, Nat.zero_add, Nat.reduceAdd,
      (by decide : min 35 3 = 3), List.take, List.drop, List.map, hq, List.nil_append]
    rw [hrun]
    simp only
    apply windowLoop_done
    simp
  simp only [GetItems, hrun', Option.map_some']
  simp only [Prod.mk.injEq] at hcase
  rcases hcase with ⟨rfl, rfl, rfl⟩ | ⟨rfl, rfl, rfl⟩ | ⟨rfl, rfl, rfl⟩ | ⟨rfl, rfl, rfl⟩ |
      ⟨rfl, rfl, rfl⟩ | ⟨rfl, rfl, rfl⟩ <;>
    simp [assemble, scanIds, mapSet, mapGet, hid]

/-- C5 (output soundness), evaluated on the code: a single identifier whose
fetch succeeds with a job posting that has no link is returned as the result,
with a nil error, whatever the schedule; and with three identifiers whose
fetches all fail, one completion order returns the item of the first failed
fetch, with a nil error. -/
theorem GetItems_returns_invalid (urlHostname : String → Option String) (sched : List Nat) :
    (ParseHNItem urlHostname (jobItem 7)).isStoryLink = false ∧
    GetItems urlHostname (fun _ => (jobItem 7, none)) sched [7] 1
      = some ([ParseHNItem urlHostname (jobItem 7)], none) ∧
    (failingFetch 5).2 ≠ none ∧
    GetItems sampleHostname failingFetch [0, 0, 0] [5, 6, 7] 1
      = some ([ParseHNItem sampleHostname (failingFetch 5).1], none) := by
  have hs : (ParseHNItem urlHostname (jobItem 7)).isStoryLink = false := by
    rw [isStoryLink_ParseHNItem]; decide
  have hid : (ParseHNItem urlHostname (jobItem 7)).ID = 7 := by
    rw [ParseHNItem_toItem]; rfl
  refine ⟨hs, ?_, by decide, by decide⟩
  simp [GetItems, GetItemsRun, windowLoop, receiveLoop, Chan.recv, Chan.ready, Chan.deliver,
    GetValidItem, hs, assemble, scanIds, mapSet, mapGet, hid, Nat.mod_one]

/-- C6 (result length and error agree): for every input and schedule
`GetItems` returns; the returned sequence has at most `numStories` items; the
error is nil exactly when it has `numStories` items and is the error
"not enough stories" exactly when it has fewer, in which case the sequence
is everything the scan of `ids` collected. -/
theorem GetItems_length_error (urlHostname : String → Option String)
    (GetItem : Int → Item × Option String) (sched : List Nat) (ids : List Int)
    (numStories : Nat) :
    ∃ st r, GetItemsRun urlHostname GetItem sched ids numStories = some st ∧
      GetItems urlHostname GetItem sched ids numStories = some r ∧
      r.1.length ≤ numStories ∧
      (r.2 = none ↔ r.1.length = numStories) ∧
      (r.2 ≠ none ↔ r.1.length < numStories) ∧
      (r.2 = some "not enough stories" ↔ r.1.length < numStories) ∧
      (r.1.length < numStories → r.1 = scanIds st.stories_map ids []) := by
  obtain ⟨st, k, hrun, _, _, _, _⟩ :=
    GetItemsRun_some urlHostname GetItem sched ids numStories
  refine ⟨st, assemble st.stories_map ids numStories, hrun, by simp [GetItems, hrun], ?_⟩
  unfold assemble
  simp only
  split
  · rename_i h
    dsimp only
    refine ⟨by omega, ?_, ?_, ?_, fun _ => rfl⟩
    · constructor
      · intro h'; simp at h'
      · intro h'; omega
    · simp [h]
    · simp [h]
  · rename_i h
    split
    · rename_i h'
      have hl : (List.take numStories (scanIds st.stories_map ids [])).length = numStories := by
        rw [List.length_take]; omega
      dsimp only
      refine ⟨by omega, by simp [hl], by simp [hl], by simp [hl], fun h'' => by omega⟩
    · rename_i h'
      have hl : (scanIds st.stories_map ids []).length = numStories := by omega
      dsimp only
      refine ⟨by omega, by simp [hl], by simp [hl], by simp [hl], fun _ => rfl⟩

/-- C7 (host derivation): `ParseHNItem` keeps the fields of the input item
and sets `Host` from the host name of the URL: the empty string when the URL
does not parse, the rest `t` when the host name is "www." followed by `t`
(one removal only), and the host name itself when it does not start with
"www.", so the empty string when there is no host name.  The two hypotheses
state what Go's `url.Parse` and `Hostname` give on the two URLs of the claim;
under them "http://www.example.com/x" yields "example.com", and the empty URL
yields the empty host and an item `isStoryLink` rejects. -/
theorem ParseHNItem_host (urlHostname : String → Option String) (hnItem : Item)
    (hwww : urlHostname "http://www.example.com/x" = some "www.example.com")
    (hempty : urlHostname "" = some "") :
    (ParseHNItem urlHostname hnItem).toItem = hnItem ∧
    (ParseHNItem urlHostname hnItem).Host =
      (match urlHostname hnItem.URL with
       | some h => TrimPrefix h "www."
       | none => "") ∧
    (urlHostname hnItem.URL = none → (ParseHNItem urlHostname hnItem).Host = "") ∧
    (∀ t : String, urlHostname hnItem.URL = some ("www." ++ t) →
      (ParseHNItem urlHostname hnItem).Host = t) ∧
    (∀ h : String, urlHostname hnItem.URL = some h → (∀ t : String, h ≠ "www." ++ t) →
      (ParseHNItem urlHostname hnItem).Host = h) ∧
    (∀ t : String, TrimPrefix ("www." ++ t) "www." = t) ∧
    (∀ h : String, (∀ t : String, h ≠ "www." ++ t) → TrimPrefix h "www." = h) ∧
    TrimPrefix "" "www." = "" ∧
    TrimPrefix "github.com" "www." = "github.com" ∧
    TrimPrefix "www.www.example.com" "www." = "www.example.com" ∧
    (ParseHNItem urlHostname { hnItem with URL := "http://www.example.com/x" }).Host
      = "example.com" ∧
    (ParseHNItem urlHostname { hnItem with URL := "" }).Host = "" ∧
    (ParseHNItem urlHostname { hnItem with URL := "" }).isStoryLink = false := by
  have hhost : (ParseHNItem urlHostname hnItem).Host =
      (match urlHostname hnItem.URL with
       | some h => TrimPrefix h "www."
       | none => "") := by
    simp only [ParseHNItem]
    split <;> rename_i h <;> simp [h]
  have htrim : ∀ t : String, TrimPrefix ("www." ++ t) "www." = t := by
    intro t
    have hp : HasPrefix ("www." ++ t) "www." = true := by
      simp [HasPrefix, String.data_append, List.isPrefixOf]
    simp only [TrimPrefix, hp, if_true, String.data_append]
    rfl
  have hkeep : ∀ h : String, (∀ t : String, h ≠ "www." ++ t) → TrimPrefix h "www." = h := by
    intro h hh
    have hp : HasPrefix h "www." = false := by
      rcases hb : HasPrefix h "www." with _ | _
      · rfl
      · exfalso
        unfold HasPrefix at hb
        obtain ⟨t, ht⟩ := List.isPrefixOf_iff_prefix.1 hb
        exact hh (String.mk t) (String.ext (by rw [String.data_append, ← ht]))
    simp [TrimPrefix, hp]
  refine ⟨ParseHNItem_toItem _ _, hhost, ?_, ?_, ?_, htrim, hkeep, by decide, by decide,
    by decide, ?_, ?_, ?_⟩
  · intro hn
    rw [hhost, hn]
  · intro t ht
    rw [hhost, ht]
    exact htrim t
  · intro h hh hne
    rw [hhost, hh]
    exact hkeep h hne
  · simp only [ParseHNItem, hwww]
    decide
  · simp only [ParseHNItem, hempty]
    decide
  · rw [isStoryLink_ParseHNItem]
    simp

/-- Witness for C7: the sample host-name function meets both hypotheses; the
parsed sample story has host "example.com", and an item whose URL has the
host name "github.com" keeps it whole. -/
theorem ParseHNItem_host_witness :
    sampleHostname "http://www.example.com/x" = some "www.example.com" ∧
    sampleHostname "" = some "" ∧
    (ParseHNItem sampleHostname (storyItem 1)).Host = "example.com" ∧
    (ParseHNItem sampleHostname
      { storyItem 2 with URL := "https://github.com/golang/go" }).Host = "github.com" :=
  ⟨by decide, by decide,
    (ParseHNItem_host sampleHostname (storyItem 1) (by decide) (by decide)).2.2.2.2.2.2.2.2.2.2.1,
    (ParseHNItem_host sampleHostname { storyItem 2 with URL := "https://github.com/golang/go" }
      (by decide) (by decide)).2.2.2.2.1 "github.com" (by decide)
      (fun t ht => by
        have hd := congrArg String.data ht
        rw [String.data_append] at hd
        exact absurd (List.head_eq_of_cons_eq hd) (by decide))⟩

/-- C8 (empty input): on the empty identifier sequence and `numStories ≥ 1`
the window loop ends at once with no goroutine launched (the channel and the
window trace are empty, so no fetch is made), and `GetItems` returns the
empty sequence with the error "not enough stories". -/
theorem GetItems_empty (urlHostname : String → Option String)
    (GetItem : Int → Item × Option String) (sched : List Nat) (numStories : Nat)
    (hN : 1 ≤ numStories) :
    GetItemsRun urlHostname GetItem sched [] numStories = some ⟨[], [], sched, []⟩ ∧
    GetItems urlHostname GetItem sched [] numStories
      = some ([], some "not enough stories") := by
  have hrun : GetItemsRun urlHostname GetItem sched [] numStories
      = some ⟨[], [], sched, []⟩ := by
    simp [GetItemsRun, windowLoop]
  refine ⟨hrun, ?_⟩
  have hpos : 0 < numStories := hN
  simp [GetItems, hrun, assemble, scanIds, hpos]

/-- Witness for C8 at `numStories = 1`. -/
theorem GetItems_empty_witness :
    1 ≤ 1 ∧
    (GetItemsRun sampleHostname exampleFetch [] [] 1 = some ⟨[], [], [], []⟩ ∧
     GetItems sampleHostname exampleFetch [] [] 1 = some ([], some "not enough stories")) :=
  ⟨Nat.le_refl 1, GetItems_empty sampleHostname exampleFetch [] 1 (Nat.le_refl 1)⟩

/-- C9 (one result signal per task), evaluated on the code: the values one
call of `GetValidItem` sends, by case.  A valid story without fetch error
gives two values, `nil` then the item; an invalid item without fetch error
gives one value, the item itself and not `nil`; a failed fetch gives two or
three values.  So exactly one value is sent only for an invalid item whose
fetch succeeded, and the last value sent is never `nil`. -/
theorem GetValidItem_sends (urlHostname : String → Option String)
    (GetItem : Int → Item × Option String) (id : Int) :
    GetValidItem urlHostname GetItem id =
      (match (ParseHNItem urlHostname (GetItem id).1).isStoryLink, (GetItem id).2 with
       | true, none => [none, some (ParseHNItem urlHostname (GetItem id).1)]
       | true, some _ => [none, none, some (ParseHNItem urlHostname (GetItem id).1)]
       | false, none => [some (ParseHNItem urlHostname (GetItem id).1)]
       | false, some _ => [none, some (ParseHNItem urlHostname (GetItem id).1)]) ∧
    ((GetValidItem urlHostname GetItem id).length = 1 ↔
      ((ParseHNItem urlHostname (GetItem id).1).isStoryLink = false ∧ (GetItem id).2 = none)) ∧
    GetValidItem urlHostname (fun _ => (storyItem 1, none)) 1
      = [none, some (ParseHNItem urlHostname (storyItem 1))] ∧
    GetValidItem urlHostname (fun _ => (commentItem 1, none)) 1
      = [some (ParseHNItem urlHostname (commentItem 1))] := by
  have h1 : (ParseHNItem urlHostname (storyItem 1)).isStoryLink = true := by
    rw [isStoryLink_ParseHNItem]; decide
  have h2 : (ParseHNItem urlHostname (commentItem 1)).isStoryLink = false := by
    rw [isStoryLink_ParseHNItem]; decide
  refine ⟨?_, ?_, by simp [GetValidItem, h1], by simp [GetValidItem, h2]⟩
  · rcases hb : (ParseHNItem urlHostname (GetItem id).1).isStoryLink <;>
      rcases he : (GetItem id).2 <;> simp [GetValidItem, hb, he]
  · rcases hb : (ParseHNItem urlHostname (GetItem id).1).isStoryLink <;>
      rcases he : (GetItem id).2 <;> simp [GetValidItem, hb, he]

/-- Counterexample to C10 as stated: with `numStories = 60` and 70
identifiers the code takes the windows at cursors 0 and 35, both of length
35, where the stated formula gives a first window of length 70.  Each triple
is the cursor, the length of the window the code took, and the length the
specification states. -/
theorem window_does_not_grow :
    (GetItemsRun sampleHostname (fun id => (commentItem id, none)) []
        ((List.range 70).map Int.ofNat) 60).map
      (fun st => st.windows.map (fun w => (w.1, w.2.1 - w.1, specWindowLength 60 w.1 70)))
    = some [(0, 35, 70), (35, 35, 35)] := by
  decide

/-- C10 as amended (window sizing): for every input and schedule the window
loop ends after some number `k` of rounds; round `i` takes the window that
starts at cursor `35 * i`, has length `min 35 (len(ids) - 35 * i)` whatever
`numStories` is, and is that contiguous slice of `ids`; every window starts
inside `ids`; and at the end the accumulator holds `numStories` entries or
the cursor has reached the end of `ids`. -/
theorem GetItems_windows (urlHostname : String → Option String)
    (GetItem : Int → Item × Option String) (sched : List Nat) (ids : List Int)
    (numStories : Nat) :
    ∃ st k, GetItemsRun urlHostname GetItem sched ids numStories = some st ∧
      35 * k < ids.length + 35 ∧
      st.windows = (List.range k).map (fun i =>
        (35 * i, 35 * i + min 35 (ids.length - 35 * i),
          (ids.drop (35 * i)).take (min 35 (ids.length - 35 * i)))) ∧
      (numStories ≤ st.stories_map.length ∨ ids.length ≤ 35 * k) := by
  obtain ⟨st, k, hrun, hw, hlt, hexit, _⟩ :=
    GetItemsRun_some urlHostname GetItem sched ids numStories
  refine ⟨st, k, hrun, ?_, ?_, ?_⟩
  · cases k with
    | zero => omega
    | succ k =>
      have := hlt k (Nat.lt_succ_self k)
      omega
  · rw [hw]
    apply List.map_congr_left
    intro i hi
    have hi' := hlt i (List.mem_range.1 hi)
    simp only [windowAt, List.drop_take]
    rw [show min (35 * i + 35) ids.length = 35 * i + min 35 (ids.length - 35 * i) from by omega,
      show 35 * i + min 35 (ids.length - 35 * i) - 35 * i = min 35 (ids.length - 35 * i) from by
        omega]
  · by_cases h1 : numStories ≤ st.stories_map.length
    · exact Or.inl h1
    · right
      by_contra h2
      apply hexit
      exact ⟨by omega, by omega⟩

end QuietHN
